import Mathlib

/-!
Shallow embedding of the tiff ingestion / demultiplexing code in
`suite2p/io/tiff.py` (together with the parts of `suite2p/io/utils.py` it
relies on), and proofs about the specification's claims on that code.

Modelling conventions:

* A 2-D image frame is abstracted to the value of one fixed pixel: every
  operation the code performs on frames (writing, summing, averaging,
  slicing a batch by frame index) acts identically and independently on
  each pixel position, so per-pixel claims ("elementwise") are faithfully
  captured by tracking a single arbitrary pixel.  In the driver model a
  frame is identified by its global index (position in the concatenation
  of all source files) and `pix : ℕ → ℚ` gives the pixel value of each
  global frame.
* Python floats are modelled by exact rationals (`ℚ`).  The float
  operations the code performs on the plane cursor (`/`, `-`, `%`,
  `int(...)`) are exact in binary floating point whenever `nchannels`
  divides the involved quantities' denominators into powers of two (the
  supported configurations use 1 or 2 channels), so the rational model
  agrees with the float semantics there.
* Machine integers are modelled by `ℤ`/`ℕ`; `astype(np.int16)` wrapping is
  explicit (`toInt16`).
* File system, tiff containers and the two reader backends are abstracted
  to lists of samples, as the spec's §4.1 capability interface describes.
-/

/-- Python float modulo `x % y`: the result has the sign of `y`,
`x % y = x - y * floor(x / y)`.  Used for the `% nplanes` cursor arithmetic
(tiff.py line 293, 454) which Python evaluates on floats. -/
def pyFmod (x y : ℚ) : ℚ := x - y * (⌊x / y⌋ : ℤ)

/-- Python `int(...)` applied to a float: truncation toward zero
(tiff.py line 281, `int(i0)`). -/
def pyInt (q : ℚ) : ℤ := if 0 ≤ q then ⌊q⌋ else -⌊-q⌋

/-- Index list of the Python slice `[start:stop:step]` for a nonnegative
`start` and positive `step`, as used in `im[int(i0) + nfunc:nframes:nplanes *
nchannels]` (tiff.py line 281): the indices `start, start+step, ...` below
`stop`. -/
def strideSlice (start step stop : ℕ) : List ℕ :=
  (List.range stop).filter fun i => decide (start ≤ i ∧ (i - start) % step = 0)

/-- `math.ceil(a / b)` for nonnegative integers (exact for the magnitudes the
code handles, where the float division is exact enough to round correctly). -/
def ceilDiv (a b : ℕ) : ℕ := (a + b - 1) / b

/-- Python `~` applied to a `bool`: `bool` is an `int` subtype, so `~True`
is `-2` and `~False` is `-1` -- both truthy.  This is the semantics of the
`if ~isbruker:` test at tiff.py line 185. -/
def pyNot (b : Bool) : ℤ := -(if b then 1 else 0) - 1

/-- Batch size actually used for reading in `tiff_to_binary`
(tiff.py lines 184-186):

    batch_size = ops["batch_size"]
    if ~isbruker:
        batch_size = nplanes * nchannels * math.ceil(batch_size / (nplanes * nchannels))

Note the guard is `~isbruker` (bitwise not), not `not isbruker`. -/
def batchSizeUsed (isbruker : Bool) (nplanes nchannels hint : ℕ) : ℕ :=
  if pyNot isbruker ≠ 0 then nplanes * nchannels * ceilDiv hint (nplanes * nchannels)
  else hint

/-- Source pixel encodings distinguished by the normalization code
(tiff.py lines 130-136 and 592-594).  `uint8` stands for the "any other
integer width" case. -/
inductive DType
  | uint16
  | int16
  | int32
  | uint8
deriving DecidableEq

/-- `astype(np.int16)`: wrap an integer into the signed 16-bit range. -/
def toInt16 (z : ℤ) : ℤ := (z + 32768) % 65536 - 32768

/-- Sample normalization performed inside `read_tiff` (tiff.py lines
130-136): `uint16` and `int32` are floor-halved then cast to `int16`, any
other non-`int16` dtype is cast to `int16`, `int16` is left untouched. -/
def normalizeReadTiff : DType → ℤ → ℤ
  | .uint16, v => toInt16 (Int.fdiv v 2)
  | .int32, v => toInt16 (Int.fdiv v 2)
  | .int16, v => v
  | .uint8, v => toInt16 v

/-- Sample normalization performed by the single-page branch of
`ome_to_binary` (tiff.py lines 592-594): only `uint16` is halved, then
everything is cast to `int16`. -/
def normalizeOme : DType → ℤ → ℤ
  | .uint16, v => toInt16 (Int.fdiv v 2)
  | _, v => toInt16 v

/-- Well-formedness of a raw sample for its declared dtype (the value is
representable in that machine type). -/
def dtWF : DType → ℤ → Bool
  | .uint16, v => decide (0 ≤ v) && decide (v < 65536)
  | .int16, v => decide (-32768 ≤ v) && decide (v < 32768)
  | .int32, v => decide (-(2 ^ 31) ≤ v) && decide (v < 2 ^ 31)
  | .uint8, v => decide (0 ≤ v) && decide (v < 256)

/-- Raw result of one backend read: either a 2-D array (a single page, no
leading frame dimension) or a 3-D stack of frames; each frame is abstracted
to one pixel sample. -/
inductive RawIm
  | d2 (v : ℤ)
  | d3 (vs : List ℤ)

/-- `np.expand_dims(im, axis=0)` when needed: view a raw read as a list of
frames (tiff.py lines 126-128). -/
def expandDims : RawIm → List ℤ
  | .d2 v => [v]
  | .d3 vs => vs

/-- The post-processing `read_tiff` applies to a raw backend read
(tiff.py lines 126-139): add the frame dimension to single pages, normalize
the dtype, and truncate if the backend returned more frames than
requested. -/
def readTiffCore (dt : DType) (raw : RawIm) (nfr : ℕ) : List ℤ :=
  let im := (expandDims raw).map (normalizeReadTiff dt)
  if nfr < im.length then im.take nfr else im

/-- A well-behaved stack reader backend over a stack of `stack.length`
frames: reading `nfr` frames at offset `ix` returns exactly the requested
slice; a read of a single page comes back as a 2-D array (tifffile's
`imread` with one key, or `tif.data()` on a one-page file). -/
def tiffBackend (stack : List ℤ) (ix nfr : ℕ) : RawIm :=
  if nfr = 1 then
    match (stack.drop ix).take 1 with
    | [v] => .d2 v
    | _ => .d3 []
  else .d3 ((stack.drop ix).take nfr)

/-- `read_tiff(file, tif, Ltif, ix, batch_size, use_sktiff)` over an
arbitrary backend (tiff.py lines 115-141): `None` when `ix >= Ltif`,
otherwise the processed read of `nfr = min(Ltif - ix, batch_size)`
frames. -/
def readTiffGen (backend : List ℤ → ℕ → ℕ → RawIm) (dt : DType)
    (stack : List ℤ) (ix batch : ℕ) : Option (List ℤ) :=
  if stack.length ≤ ix then none
  else some (readTiffCore dt (backend stack ix (min (stack.length - ix) batch))
    (min (stack.length - ix) batch))

/-- `read_tiff` with the well-behaved backend. -/
def read_tiff (dt : DType) (stack : List ℤ) (ix batch : ℕ) : Option (List ℤ) :=
  readTiffGen tiffBackend dt stack ix batch

/-- The plane-cycle table `iplanes` built by `ome_to_binary`
(tiff.py lines 572-583): tile `arange(nplanes)` (or its palindrome when
`bruker_bidirectional`) `ceil` enough times, then truncate to the number of
functional-channel files. -/
def omePlaneCycle (nplanes nfiles : ℕ) (bidirectional : Bool) : List ℕ :=
  if bidirectional then
    ((List.replicate (ceilDiv nfiles (2 * nplanes))
      (List.range nplanes ++ (List.range nplanes).reverse)).flatten).take nfiles
  else
    ((List.replicate (ceilDiv nfiles nplanes) (List.range nplanes)).flatten).take nfiles

/-! Helper lemmas about the standalone definitions. -/

lemma toInt16_range (z : ℤ) : -32768 ≤ toInt16 z ∧ toInt16 z < 32768 := by
  unfold toInt16
  constructor
  · have := Int.emod_nonneg (z + 32768) (by norm_num : (65536 : ℤ) ≠ 0)
    omega
  · have := Int.emod_lt_of_pos (z + 32768) (by norm_num : (0 : ℤ) < 65536)
    omega

lemma toInt16_eq_self {z : ℤ} (h1 : -32768 ≤ z) (h2 : z < 32768) : toInt16 z = z := by
  unfold toInt16
  rw [Int.emod_eq_of_lt (by omega) (by omega)]
  omega

lemma normalizeReadTiff_range (dt : DType) (v : ℤ) (h : dtWF dt v = true) :
    -32768 ≤ normalizeReadTiff dt v ∧ normalizeReadTiff dt v < 32768 := by
  cases dt <;>
    simp only [dtWF, Bool.and_eq_true, decide_eq_true_eq] at h <;>
    simp only [normalizeReadTiff] <;>
    first
      | exact toInt16_range _
      | omega

lemma length_flatten_replicate {α : Type} (n : ℕ) (l : List α) :
    ((List.replicate n l).flatten).length = n * l.length := by
  induction n with
  | zero => simp
  | succ k ih => simp [List.replicate_succ, ih, Nat.succ_mul, Nat.add_comm]

lemma le_ceilDiv_mul (a : ℕ) {b : ℕ} (hb : 0 < b) : a ≤ ceilDiv a b * b := by
  have h : a + b - 1 < (ceilDiv a b + 1) * b :=
    (Nat.div_lt_iff_lt_mul hb).mp (Nat.lt_succ_self _)
  rw [Nat.succ_mul] at h
  omega

lemma readTiffCore_length_le (dt : DType) (raw : RawIm) (nfr : ℕ) :
    (readTiffCore dt raw nfr).length ≤ nfr := by
  simp only [readTiffCore]
  split
  · simp [List.length_take]
  · omega

/-! Claims C9, C4, C5, C7, C10. -/

/-- Claim C9 (code bug): the claim says the batch-size hint is rounded up to a
multiple of `nplanes * nchannels` for interleaved formats *and only for
those, not Bruker*; but the guard `if ~isbruker:` applies `~` to a Python
`bool`, and both `~True == -2` and `~False == -1` are truthy, so the code
rounds the hint up for Bruker acquisitions as well.  At `isbruker = True`,
`nplanes = 2`, `nchannels = 1`, hint `5`, the code uses `6` where the claim
(and the evident intent `not isbruker`) requires `5`. -/
theorem c9_batch_adjustment_also_hits_bruker :
    batchSizeUsed true 2 1 5 = 6 ∧ batchSizeUsed false 2 1 5 = 6 ∧
      batchSizeUsed true 2 1 5 ≠ 5 := by decide

/-- Claim C4, counterexample: the claim's normalization rule ("signed 32-bit
samples are halved then cast") does not apply to every ingestion path that
writes samples: the single-page branch of `ome_to_binary` (tiff.py lines
592-594) halves only `uint16` and casts `int32` samples without halving, so
the raw `int32` sample `6` is written as `6` there while the claimed rule
(and `read_tiff`) produces `3`. -/
theorem c4_counterexample :
    normalizeOme .int32 6 = 6 ∧ normalizeReadTiff .int32 6 = 3 ∧
      normalizeOme .int32 6 ≠ 3 := by decide

/-- Claim C4 as amended: the three-case rule (uint16 right-shifted one bit
then cast, int32 floor-halved then cast, other widths cast unscaled, int16
untouched) holds for the batch-read path `read_tiff`; the OME single-page
path halves only uint16 and casts every other width, int32 included,
without halving. -/
theorem c4_normalization_per_path :
    (∀ v : ℕ, v < 65536 → normalizeReadTiff .uint16 (v : ℤ) = ((v >>> 1 : ℕ) : ℤ)) ∧
    (∀ z : ℤ, normalizeReadTiff .int32 z = toInt16 (Int.fdiv z 2)) ∧
    (∀ z : ℤ, -32768 ≤ z → z < 32768 → normalizeReadTiff .int16 z = z) ∧
    (∀ v : ℕ, v < 256 → normalizeReadTiff .uint8 (v : ℤ) = (v : ℤ)) ∧
    (∀ v : ℕ, v < 65536 → normalizeOme .uint16 (v : ℤ) = ((v >>> 1 : ℕ) : ℤ)) ∧
    (∀ z : ℤ, normalizeOme .int32 z = toInt16 z) := by
  have key : ∀ v : ℕ, v < 65536 → toInt16 (Int.fdiv (v : ℤ) 2) = ((v >>> 1 : ℕ) : ℤ) := by
    intro v hv
    have h1 : Int.fdiv (v : ℤ) 2 = ((v / 2 : ℕ) : ℤ) := by
      rw [Int.fdiv_eq_ediv _ (by norm_num)]
      exact (Int.natCast_ediv v 2).symm
    have h2 : v / 2 < 32768 := by omega
    rw [h1, Nat.shiftRight_eq_div_pow, pow_one]
    exact toInt16_eq_self (by omega) (by exact_mod_cast h2)
  refine ⟨fun v hv => key v hv, fun z => rfl, fun z h1 h2 => rfl,
    fun v hv => toInt16_eq_self (by omega) (by omega),
    fun v hv => key v hv, fun z => rfl⟩

/-- Claim C4 amended, witness. -/
theorem c4_normalization_per_path_witness :
    normalizeReadTiff .uint16 ((7 : ℕ) : ℤ) = ((7 >>> 1 : ℕ) : ℤ) :=
  c4_normalization_per_path.1 7 (by decide)

/-- Claim C5: the OME plane-cycle table is built by tiling `[0..P)` (the
palindrome for bidirectional acquisitions) until it covers the file list
and truncating to the file-list length; for 5 files and P = 2 it is
`[0,1,0,1,0]` non-bidirectional and `[0,1,1,0,0]` bidirectional. -/
theorem c5_file_cycle_table :
    (∀ (nplanes nfiles : ℕ) (b : Bool), 0 < nplanes →
      (omePlaneCycle nplanes nfiles b).length = nfiles) ∧
    omePlaneCycle 2 5 false = [0, 1, 0, 1, 0] ∧
    omePlaneCycle 2 5 true = [0, 1, 1, 0, 0] := by
  refine ⟨fun nplanes nfiles b hP => ?_, by decide, by decide⟩
  cases b
  · simp only [omePlaneCycle, Bool.false_eq_true, if_false, List.length_take,
      length_flatten_replicate, List.length_range]
    exact Nat.min_eq_left (le_ceilDiv_mul nfiles hP)
  · simp only [omePlaneCycle, if_true, List.length_take, length_flatten_replicate,
      List.length_append, List.length_range, List.length_reverse]
    have h2 : 0 < 2 * nplanes := by omega
    have h := le_ceilDiv_mul nfiles h2
    refine Nat.min_eq_left ?_
    calc nfiles ≤ ceilDiv nfiles (2 * nplanes) * (2 * nplanes) := h
      _ = ceilDiv nfiles (2 * nplanes) * (nplanes + nplanes) := by ring

/-- Claim C5, witness. -/
theorem c5_file_cycle_table_witness : (omePlaneCycle 3 7 true).length = 7 :=
  c5_file_cycle_table.1 3 7 true (by decide)

/-- Claim C7: for an open stack handle of logical length `L`, a batch read at
start offset `s` with requested count `c` returns exactly `min(c, L - s)`
frames when `s < L`, and the explicit no-more-data signal `None` (not an
error) when `s >= L`. -/
theorem c7_read_batch_contract (dt : DType) (stack : List ℤ) (ix batch : ℕ) :
    (stack.length ≤ ix → read_tiff dt stack ix batch = none) ∧
    (ix < stack.length →
      (read_tiff dt stack ix batch).map List.length =
        some (min batch (stack.length - ix))) := by
  constructor
  · intro h
    simp [read_tiff, readTiffGen, h]
  · intro h
    have hnle : ¬ stack.length ≤ ix := not_le.mpr h
    simp only [read_tiff, readTiffGen, if_neg hnle, Option.map_some']
    congr 1
    rw [min_comm batch]
    set nfr := min (stack.length - ix) batch with hnfr
    have hle : nfr ≤ stack.length - ix := min_le_left _ _
    have hslice : ((stack.drop ix).take nfr).length = nfr := by
      simp only [List.length_take, List.length_drop]
      omega
    by_cases h1 : nfr = 1
    · rw [h1]
      cases hd : stack.drop ix with
      | nil =>
        exfalso
        have hlen : (stack.drop ix).length = stack.length - ix := List.length_drop _ _
        rw [hd] at hlen
        simp at hlen
        omega
      | cons x xs =>
        simp [tiffBackend, hd, readTiffCore, expandDims]
    · have hmatch : tiffBackend stack ix nfr = .d3 ((stack.drop ix).take nfr) := by
        simp [tiffBackend, h1]
      rw [hmatch]
      simp [readTiffCore, expandDims]
      omega

/-- Claim C7, witness. -/
theorem c7_read_batch_contract_witness :
    (read_tiff .int16 [5, 7, 9] 1 7).map List.length = some (min 7 2) := by
  have h := (c7_read_batch_contract .int16 [5, 7, 9] 1 7).2 (by decide)
  simpa using h

/-- Claim C10: a non-end-of-stack batch read, over any backend whose raw
result is well-formed for its dtype, is a frame list of signed-16-bit
samples with at most `min(batch_size, length - start)` frames: a 2-D
single-page read is expanded to one frame and a backend result longer than
requested is truncated to the requested count. -/
theorem c10_read_result_shape_dtype (backend : List ℤ → ℕ → ℕ → RawIm)
    (dt : DType) (stack : List ℤ) (ix batch : ℕ) (hix : ix < stack.length)
    (hwf : ∀ v ∈ expandDims (backend stack ix (min (stack.length - ix) batch)),
      dtWF dt v = true) :
    readTiffGen backend dt stack ix batch ≠ none ∧
    ∀ out, readTiffGen backend dt stack ix batch = some out →
      out.length ≤ min batch (stack.length - ix) ∧
      ∀ v ∈ out, -32768 ≤ v ∧ v < 32768 := by
  have hnle : ¬ stack.length ≤ ix := not_le.mpr hix
  constructor
  · simp [readTiffGen, hnle]
  · intro out hout
    simp only [readTiffGen, if_neg hnle, Option.some.injEq] at hout
    constructor
    · rw [min_comm, ← hout]
      exact readTiffCore_length_le _ _ _
    · intro v hv
      rw [← hout] at hv
      have hmem : v ∈ (expandDims (backend stack ix
          (min (stack.length - ix) batch))).map (normalizeReadTiff dt) := by
        simp only [readTiffCore] at hv
        split at hv
        · exact List.mem_of_mem_take hv
        · exact hv
      obtain ⟨w, hw, rfl⟩ := List.mem_map.mp hmem
      exact normalizeReadTiff_range dt w (hwf w hw)

/-- Claim C10, witness: a backend that returns three frames when one was
requested is truncated to a single normalized frame. -/
theorem c10_read_result_shape_dtype_witness :
    ((readTiffGen (fun _ _ _ => RawIm.d3 [300, 1, 2]) .uint16 [10, 20] 0 1).getD []).length ≤ 1 := by
  obtain ⟨h1, h2⟩ := c10_read_result_shape_dtype (fun _ _ _ => RawIm.d3 [300, 1, 2])
    .uint16 [10, 20] 0 1 (by decide) (by decide)
  cases hc : readTiffGen (fun _ _ _ => RawIm.d3 [300, 1, 2]) DType.uint16 [10, 20] 0 1 with
  | none => exact absurd hc h1
  | some out =>
    have h3 := (h2 out hc).1
    simp only [hc, Option.getD_some]
    omega

/-! The ingestion driver of `tiff_to_binary` (the non-Bruker interleaved
path, tiff.py lines 160-299). -/

/-- Acquisition configuration used by `tiff_to_binary`. -/
structure TiffCfg where
  nplanes : ℕ
  nchannels : ℕ
  functional_chan : ℕ
  batchHint : ℕ

/-- One source tiff file: its frame count and its `first_tiffs` flag (true
when the file starts a new data folder). -/
structure FileSpec where
  length : ℕ
  firstTiff : Bool
deriving DecidableEq

/-- Per-plane output stream state (the per-plane entries of `ops1[j]` plus
the sinks `reg_file[j]` and `reg_file_chan2[j]`).  `written`/`written2`
record the global indices of the frames appended to the functional and
second-channel sinks, in order; `meanImg`/`meanImg2` are the accumulators
at the fixed pixel. -/
structure PStream where
  written : List ℕ
  written2 : List ℕ
  nframes : ℕ
  framesPerFile : List ℕ
  framesPerFolder : List ℕ
  meanImg : ℚ
  meanImg2 : ℚ

/-- Driver state threaded through the file/batch loops of `tiff_to_binary`:
`which_folder`, the float plane cursor `iplane`, and the per-plane
streams. -/
structure TiffState where
  whichFolder : ℤ
  iplane : ℚ
  streams : List PStream

/-- Python list indexing: a negative index counts from the end;
out-of-range raises `IndexError` (modelled as `none`). -/
def pyIdx (len : ℕ) (i : ℤ) : Option ℕ :=
  if 0 ≤ i then (if i < (len : ℤ) then some i.toNat else none)
  else (if 0 ≤ i + (len : ℤ) then some (i + (len : ℤ)).toNat else none)

/-- `l[i] += d` at a Python index (the source raises on an out-of-range
index; the model leaves the list unchanged there). -/
def pyBump (l : List ℕ) (i : ℤ) (d : ℕ) : List ℕ :=
  match pyIdx l.length i with
  | some k => l.set k (l.getD k 0 + d)
  | none => l

/-- `im2write.mean(axis=0)` at the fixed pixel.  numpy's mean of an empty
slice is NaN; the model returns 0 there, and no theorem relies on the value
of an empty-slice mean. -/
def pyMean (l : List ℚ) : ℚ := l.sum / (l.length : ℚ)

/-- Apply `f j` to element number `j` of a list, `j` counted from `j0`:
the `for j in range(0, nplanes)` loop over the plane streams. -/
def updEach {α : Type} (f : ℕ → α → α) : ℕ → List α → List α
  | _, [] => []
  | j, a :: rest => f j a :: updEach f (j + 1) rest

/-- Append the routed payload of one batch to plane `j`'s stream
(tiff.py lines 283-292): write the functional slice `g`, add its pixel sum
to `meanImg`, bump `nframes` and the per-file / per-folder tallies by its
frame count; for multi-channel acquisitions also write the second-channel
slice `g2` and add its pixel *mean* (`im2write.mean(axis=0)`, line 292) to
`meanImg2`. -/
def appendTo (pix : ℕ → ℚ) (ik : ℕ) (wf : ℤ) (useChan2 : Bool)
    (g g2 : List ℕ) (s : PStream) : PStream where
  written := s.written ++ g
  written2 := if useChan2 then s.written2 ++ g2 else s.written2
  nframes := s.nframes + g.length
  framesPerFile := pyBump s.framesPerFile ik g.length
  framesPerFolder := pyBump s.framesPerFolder wf g.length
  meanImg := s.meanImg + (g.map pix).sum
  meanImg2 := if useChan2 then s.meanImg2 + pyMean (g2.map pix) else s.meanImg2

/-- Process one batch of `b.2` frames read at file-local offset `b.1` of
file `ik` (whose first frame has global index `fileStart`): for each plane
`j`, compute `i0 = nchannels * ((iplane + j) % nplanes)` and route the
slices `im[int(i0) + nfunc : nframes : nplanes * nchannels]` (and
`im[int(i0) + 1 - nfunc : ...]` for the second channel) -- tiff.py lines
267-292 -- then step the cursor
`iplane = (iplane - nframes / nchannels) % nplanes` (line 293). -/
def processBatch (cfg : TiffCfg) (pix : ℕ → ℚ) (ik fileStart : ℕ)
    (st : TiffState) (b : ℕ × ℕ) : TiffState where
  whichFolder := st.whichFolder
  iplane := pyFmod (st.iplane - (b.2 : ℚ) / (cfg.nchannels : ℚ)) (cfg.nplanes : ℚ)
  streams := updEach (fun j s =>
    let i0 := pyInt ((cfg.nchannels : ℚ) *
      pyFmod (st.iplane + (j : ℚ)) (cfg.nplanes : ℚ))
    let nfunc := if 1 < cfg.nchannels then cfg.functional_chan - 1 else 0
    appendTo pix ik st.whichFolder (decide (1 < cfg.nchannels))
      ((strideSlice (i0.toNat + nfunc) (cfg.nplanes * cfg.nchannels) b.2).map
        (fun i => fileStart + b.1 + i))
      ((strideSlice (i0.toNat + 1 - nfunc) (cfg.nplanes * cfg.nchannels) b.2).map
        (fun i => fileStart + b.1 + i))
      s) 0 st.streams

/-- The `(ix, nfr)` batch schedule of the `while` loop (tiff.py lines
214-299) for a file of `L` frames and batch size `B`: `nfr = min(L - ix,
B)` starting at `ix = 0` until `ix >= L`.  The fuel argument makes the
recursion structural; `L` steps always suffice because each batch consumes
at least one frame when `B >= 1` (with `B = 0` the source loops forever;
the model returns an empty schedule). -/
def batchListAux (L B : ℕ) : ℕ → ℕ → List (ℕ × ℕ)
  | 0, _ => []
  | fuel + 1, ix =>
    if ix < L then (ix, min (L - ix) B) :: batchListAux L B fuel (ix + min (L - ix) B)
    else []

/-- Batch schedule of a file of `L` frames at batch size `B`. -/
def batchList (L B : ℕ) : List (ℕ × ℕ) := batchListAux L B L 0

/-- Process one source file (tiff.py lines 193-299, non-Bruker branch):
advance the folder counter and reset the plane cursor when the file is
flagged in `first_tiffs` (lines 208-210), then run all of its batches. -/
def processFile (cfg : TiffCfg) (pix : ℕ → ℚ) (ik fileStart : ℕ)
    (f : FileSpec) (st : TiffState) : TiffState :=
  (batchList f.length
      (batchSizeUsed false cfg.nplanes cfg.nchannels cfg.batchHint)).foldl
    (processBatch cfg pix ik fileStart)
    (if f.firstTiff then { st with whichFolder := st.whichFolder + 1, iplane := 0 } else st)

/-- Number of data folders, `first_tiffs.sum` (utils.py line 324). -/
def countFolders (files : List FileSpec) : ℕ := (files.filter (·.firstTiff)).length

/-- Zeroed per-plane stream as created at `ik == 0 and ix == 0`
(tiff.py lines 268-275) and by `find_files_open_binaries` (the per-folder
table, utils.py line 324). -/
def initStream (nfiles nfolders : ℕ) : PStream :=
  ⟨[], [], 0, List.replicate nfiles 0, List.replicate nfolders 0, 0, 0⟩

/-- Initial driver state: `which_folder = -1`, zeroed streams.  The source
first assigns `iplane` under the first `first_tiffs` flag (and would raise
`NameError` were the first file unflagged, which `get_tif_list` prevents);
the model's initial 0 is only ever observed through that same
assignment. -/
def initState (cfg : TiffCfg) (files : List FileSpec) : TiffState :=
  ⟨-1, 0, List.replicate cfg.nplanes (initStream files.length (countFolders files))⟩

/-- The file loop of `tiff_to_binary`: `ik` is the file ordinal, the second
argument the global index of the file's first frame. -/
def tiffRunAux (cfg : TiffCfg) (pix : ℕ → ℚ) :
    ℕ → ℕ → List FileSpec → TiffState → TiffState
  | _, _, [], st => st
  | ik, g, f :: rest, st =>
    tiffRunAux cfg pix (ik + 1) (g + f.length) rest (processFile cfg pix ik g f st)

/-- The whole non-Bruker interleaved ingestion loop of `tiff_to_binary`. -/
def tiffRun (cfg : TiffCfg) (files : List FileSpec) (pix : ℕ → ℚ) : TiffState :=
  tiffRunAux cfg pix 0 0 files (initState cfg files)

/-! A kernel-computable integer skeleton of the driver.  The float cursor
`iplane` always has denominator `nchannels` (it starts at 0 and each step
subtracts `nframes / nchannels` and reduces mod `nplanes`), so the state is
represented exactly by the integer `iplaneK = iplane * nchannels`; the
rational accumulators (`meanImg`, `meanImg2`) are dropped.  The bridge
lemmas below prove the skeleton equal to the literal model, which lets the
concrete scenario theorems be evaluated by `decide`. -/

/-- `PStream` without the rational accumulators. -/
structure PSkel where
  written : List ℕ
  written2 : List ℕ
  nframes : ℕ
  framesPerFile : List ℕ
  framesPerFolder : List ℕ
deriving DecidableEq

/-- `TiffState` with the cursor scaled by `nchannels`. -/
structure TSkel where
  whichFolder : ℤ
  iplaneK : ℤ
  skels : List PSkel
deriving DecidableEq

/-- Forget the rational accumulators of a stream. -/
def PStream.skel (s : PStream) : PSkel :=
  ⟨s.written, s.written2, s.nframes, s.framesPerFile, s.framesPerFolder⟩

/-- Skeleton counterpart of `appendTo`. -/
def appendToK (ik : ℕ) (wf : ℤ) (useChan2 : Bool) (g g2 : List ℕ)
    (s : PSkel) : PSkel where
  written := s.written ++ g
  written2 := if useChan2 then s.written2 ++ g2 else s.written2
  nframes := s.nframes + g.length
  framesPerFile := pyBump s.framesPerFile ik g.length
  framesPerFolder := pyBump s.framesPerFolder wf g.length

/-- Per-plane routing step of the skeleton for plane `j`, with `a` the
scaled cursor at the start of the batch. -/
def routeK (cfg : TiffCfg) (ik fileStart : ℕ) (wf : ℤ) (a : ℤ) (b : ℕ × ℕ)
    (j : ℕ) (s : PSkel) : PSkel :=
  let i0 := ((a + (j : ℤ) * (cfg.nchannels : ℤ)) %
    ((cfg.nplanes * cfg.nchannels : ℕ) : ℤ)).toNat
  let nfunc := if 1 < cfg.nchannels then cfg.functional_chan - 1 else 0
  appendToK ik wf (decide (1 < cfg.nchannels))
    ((strideSlice (i0 + nfunc) (cfg.nplanes * cfg.nchannels) b.2).map
      (fun i => fileStart + b.1 + i))
    ((strideSlice (i0 + 1 - nfunc) (cfg.nplanes * cfg.nchannels) b.2).map
      (fun i => fileStart + b.1 + i))
    s

/-- Skeleton counterpart of `processBatch`: `i0` and the cursor are computed
with integer floor-mod on the scaled cursor. -/
def processBatchK (cfg : TiffCfg) (ik fileStart : ℕ) (st : TSkel)
    (b : ℕ × ℕ) : TSkel where
  whichFolder := st.whichFolder
  iplaneK := (st.iplaneK - (b.2 : ℤ)) % ((cfg.nplanes * cfg.nchannels : ℕ) : ℤ)
  skels := updEach (routeK cfg ik fileStart st.whichFolder st.iplaneK b) 0 st.skels

/-- Skeleton counterpart of `processFile`. -/
def processFileK (cfg : TiffCfg) (ik fileStart : ℕ) (f : FileSpec)
    (st : TSkel) : TSkel :=
  (batchList f.length
      (batchSizeUsed false cfg.nplanes cfg.nchannels cfg.batchHint)).foldl
    (processBatchK cfg ik fileStart)
    (if f.firstTiff then { st with whichFolder := st.whichFolder + 1, iplaneK := 0 } else st)

/-- Skeleton counterpart of `initStream` / `initState`. -/
def initSkel (nfiles nfolders : ℕ) : PSkel :=
  ⟨[], [], 0, List.replicate nfiles 0, List.replicate nfolders 0⟩

/-- Skeleton initial state. -/
def initStateK (cfg : TiffCfg) (files : List FileSpec) : TSkel :=
  ⟨-1, 0, List.replicate cfg.nplanes (initSkel files.length (countFolders files))⟩

/-- Skeleton counterpart of `tiffRunAux`. -/
def tiffRunAuxK (cfg : TiffCfg) : ℕ → ℕ → List FileSpec → TSkel → TSkel
  | _, _, [], st => st
  | ik, g, f :: rest, st =>
    tiffRunAuxK cfg (ik + 1) (g + f.length) rest (processFileK cfg ik g f st)

/-- Skeleton counterpart of `tiffRun`. -/
def tiffRunK (cfg : TiffCfg) (files : List FileSpec) : TSkel :=
  tiffRunAuxK cfg 0 0 files (initStateK cfg files)

/-! Bridge lemmas: the literal rational model equals the scaled-integer
skeleton. -/

lemma pyInt_intCast (z : ℤ) : pyInt ((z : ℚ)) = z := by
  unfold pyInt
  split
  · exact Int.floor_intCast z
  · rw [← Int.cast_neg, Int.floor_intCast]
    ring

/-- `pyFmod` on a rational with denominator `c` is the integer floor-mod of
the scaled numerator: `(a/c) % P = (a % (P*c)) / c`. -/
lemma pyFmod_scaled (a : ℤ) (c P : ℕ) (hc : 0 < c) :
    pyFmod ((a : ℚ) / (c : ℚ)) (P : ℚ) =
      ((a % ((P * c : ℕ) : ℤ) : ℤ) : ℚ) / (c : ℚ) := by
  have hc0 : ((c : ℚ)) ≠ 0 := by
    exact_mod_cast hc.ne'
  have hmul : (c : ℚ) * (P : ℚ) = (((P * c : ℕ) : ℕ) : ℚ) := by
    push_cast
    ring
  have hfloor : ⌊((a : ℚ) / (c : ℚ)) / (P : ℚ)⌋ = a / ((P * c : ℕ) : ℤ) := by
    rw [div_div, hmul, Rat.floor_intCast_div_natCast]
  unfold pyFmod
  rw [hfloor, Int.emod_def]
  push_cast
  field_simp
  ring

/-- The `i0` computation scaled: `int(C * ((a/C + j) % P)) = (a + j*C) %
(P*C)`. -/
lemma i0_scaled (a : ℤ) (j c P : ℕ) (hc : 0 < c) :
    pyInt ((c : ℚ) * pyFmod ((a : ℚ) / (c : ℚ) + (j : ℚ)) (P : ℚ)) =
      (a + (j : ℤ) * (c : ℤ)) % ((P * c : ℕ) : ℤ) := by
  have hc0 : ((c : ℚ)) ≠ 0 := by
    exact_mod_cast hc.ne'
  have h1 : (a : ℚ) / (c : ℚ) + (j : ℚ) =
      (((a + (j : ℤ) * (c : ℤ)) : ℤ) : ℚ) / (c : ℚ) := by
    field_simp
  rw [h1, pyFmod_scaled _ _ _ hc, mul_div_cancel₀ _ hc0, pyInt_intCast]

/-- The cursor update scaled: `(a/C - n/C) % P = ((a - n) % (P*C)) / C`. -/
lemma cursor_scaled (a : ℤ) (n c P : ℕ) (hc : 0 < c) :
    pyFmod ((a : ℚ) / (c : ℚ) - (n : ℚ) / (c : ℚ)) (P : ℚ) =
      (((a - (n : ℤ)) % ((P * c : ℕ) : ℤ) : ℤ) : ℚ) / (c : ℚ) := by
  have hc0 : ((c : ℚ)) ≠ 0 := by
    exact_mod_cast hc.ne'
  have h1 : (a : ℚ) / (c : ℚ) - (n : ℚ) / (c : ℚ) =
      (((a - (n : ℤ)) : ℤ) : ℚ) / (c : ℚ) := by
    field_simp
  rw [h1, pyFmod_scaled _ _ _ hc]

/-- Correspondence between a literal driver state and its skeleton: same
folder counter, cursor equal to the scaled integer cursor divided by
`nchannels`, streams projecting to the skeleton streams. -/
def Corr (c : ℕ) (st : TiffState) (k : TSkel) : Prop :=
  st.whichFolder = k.whichFolder ∧ st.iplane = (k.iplaneK : ℚ) / (c : ℚ) ∧
    st.streams.map PStream.skel = k.skels

lemma updEach_map {α β : Type} (m : α → β) (f : ℕ → α → α) (fk : ℕ → β → β)
    (h : ∀ j a, m (f j a) = fk j (m a)) :
    ∀ (j0 : ℕ) (l : List α), (updEach f j0 l).map m = updEach fk j0 (l.map m)
  | _, [] => rfl
  | j0, a :: rest => by
    simp only [updEach, List.map_cons, h, updEach_map m f fk h (j0 + 1) rest]

lemma processBatch_corr (cfg : TiffCfg) (pix : ℕ → ℚ) (ik g : ℕ)
    (st : TiffState) (k : TSkel) (b : ℕ × ℕ) (hc : 0 < cfg.nchannels)
    (h : Corr cfg.nchannels st k) :
    Corr cfg.nchannels (processBatch cfg pix ik g st b) (processBatchK cfg ik g k b) := by
  obtain ⟨h1, h2, h3⟩ := h
  refine ⟨h1, ?_, ?_⟩
  · show pyFmod (st.iplane - (b.2 : ℚ) / (cfg.nchannels : ℚ)) (cfg.nplanes : ℚ) = _
    rw [h2, cursor_scaled _ _ _ _ hc]
    rfl
  · show (updEach _ 0 st.streams).map PStream.skel = updEach _ 0 k.skels
    rw [← h3]
    refine updEach_map _ _ _ (fun j s => ?_) 0 st.streams
    have hi0 : pyInt ((cfg.nchannels : ℚ) *
        pyFmod (st.iplane + (j : ℚ)) (cfg.nplanes : ℚ)) =
        (k.iplaneK + (j : ℤ) * (cfg.nchannels : ℤ)) %
          ((cfg.nplanes * cfg.nchannels : ℕ) : ℤ) := by
      rw [h2]
      exact i0_scaled k.iplaneK j cfg.nchannels cfg.nplanes hc
    simp only [appendTo, appendToK, routeK, PStream.skel, h1, hi0]

lemma foldl_corr {σ τ γ : Type} (R : σ → τ → Prop) (f : σ → γ → σ)
    (fk : τ → γ → τ) (h : ∀ s t b, R s t → R (f s b) (fk t b)) :
    ∀ (l : List γ) (s : σ) (t : τ), R s t → R (l.foldl f s) (l.foldl fk t)
  | [], _, _, hst => hst
  | b :: rest, s, t, hst => foldl_corr R f fk h rest (f s b) (fk t b) (h s t b hst)

lemma processFile_corr (cfg : TiffCfg) (pix : ℕ → ℚ) (ik g : ℕ)
    (f : FileSpec) (st : TiffState) (k : TSkel) (hc : 0 < cfg.nchannels)
    (h : Corr cfg.nchannels st k) :
    Corr cfg.nchannels (processFile cfg pix ik g f st) (processFileK cfg ik g f k) := by
  refine foldl_corr _ _ _ (fun s t b hst => processBatch_corr cfg pix ik g s t b hc hst) _ _ _ ?_
  obtain ⟨h1, h2, h3⟩ := h
  cases hf : f.firstTiff
  · simpa [processFile, processFileK, hf] using ⟨h1, h2, h3⟩
  · exact ⟨by simp [h1], by simp, h3⟩

lemma tiffRunAux_corr (cfg : TiffCfg) (pix : ℕ → ℚ) (hc : 0 < cfg.nchannels) :
    ∀ (files : List FileSpec) (ik g : ℕ) (st : TiffState) (k : TSkel),
      Corr cfg.nchannels st k →
      Corr cfg.nchannels (tiffRunAux cfg pix ik g files st) (tiffRunAuxK cfg ik g files k)
  | [], _, _, _, _, h => h
  | f :: rest, ik, g, st, k, h =>
    tiffRunAux_corr cfg pix hc rest (ik + 1) (g + f.length) _ _
      (processFile_corr cfg pix ik g f st k hc h)

/-- The literal driver equals its integer skeleton on every component other
than the mean accumulators. -/
lemma tiffRun_corr (cfg : TiffCfg) (files : List FileSpec) (pix : ℕ → ℚ)
    (hc : 0 < cfg.nchannels) :
    Corr cfg.nchannels (tiffRun cfg files pix) (tiffRunK cfg files) := by
  refine tiffRunAux_corr cfg pix hc files 0 0 _ _ ⟨rfl, by simp [initState, initStateK], ?_⟩
  simp [initState, initStateK, List.map_replicate, PStream.skel, initStream, initSkel]

/-! Mean-image and frame-counter invariants of the literal driver. -/

lemma mem_updEach {α : Type} (f : ℕ → α → α) :
    ∀ (j0 : ℕ) (l : List α) (a : α), a ∈ updEach f j0 l → ∃ j b, b ∈ l ∧ a = f j b
  | _, [], a, h => by simp [updEach] at h
  | j0, c :: rest, a, h => by
    simp only [updEach, List.mem_cons] at h
    rcases h with h | h
    · exact ⟨j0, c, List.mem_cons_self _ _, h⟩
    · obtain ⟨j, b, hb, rfl⟩ := mem_updEach f (j0 + 1) rest a h
      exact ⟨j, b, List.mem_cons_of_mem _ hb, rfl⟩

lemma foldl_preserve {σ γ : Type} (Q : σ → Prop) (f : σ → γ → σ)
    (h : ∀ s b, Q s → Q (f s b)) :
    ∀ (l : List γ) (s : σ), Q s → Q (l.foldl f s)
  | [], _, hs => hs
  | b :: rest, s, hs => foldl_preserve Q f h rest (f s b) (h s b hs)

/-- Invariant: each stream's `meanImg` is the pixel sum of the frames
appended to its functional sink, and `nframes` counts exactly those
frames. -/
def MeanInv (pix : ℕ → ℚ) (st : TiffState) : Prop :=
  ∀ s ∈ st.streams, s.meanImg = (s.written.map pix).sum ∧ s.nframes = s.written.length

lemma meanInv_processBatch {cfg : TiffCfg} {pix : ℕ → ℚ} {ik g : ℕ}
    {st : TiffState} (b : ℕ × ℕ) (h : MeanInv pix st) :
    MeanInv pix (processBatch cfg pix ik g st b) := by
  intro s hs
  simp only [processBatch] at hs
  obtain ⟨j, t, ht, rfl⟩ := mem_updEach _ _ _ _ hs
  obtain ⟨h1, h2⟩ := h t ht
  constructor <;> simp [appendTo, h1, h2]

lemma meanInv_processFile {cfg : TiffCfg} {pix : ℕ → ℚ} {ik g : ℕ}
    (f : FileSpec) {st : TiffState} (h : MeanInv pix st) :
    MeanInv pix (processFile cfg pix ik g f st) := by
  refine foldl_preserve _ _ (fun s b hs => meanInv_processBatch b hs) _ _ ?_
  cases hf : f.firstTiff <;> simpa [hf] using h

lemma meanInv_tiffRunAux {cfg : TiffCfg} {pix : ℕ → ℚ} :
    ∀ (files : List FileSpec) (ik g : ℕ) (st : TiffState), MeanInv pix st →
      MeanInv pix (tiffRunAux cfg pix ik g files st)
  | [], _, _, _, h => h
  | f :: rest, ik, g, st, h =>
    meanInv_tiffRunAux rest (ik + 1) (g + f.length)
      (processFile cfg pix ik g f st) (meanInv_processFile f h)

lemma meanInv_tiffRun (cfg : TiffCfg) (files : List FileSpec) (pix : ℕ → ℚ) :
    MeanInv pix (tiffRun cfg files pix) := by
  refine meanInv_tiffRunAux files 0 0 _ ?_
  intro s hs
  have := List.eq_of_mem_replicate hs
  subst this
  simp [initStream]

/-- The finalize step for the functional mean image (tiff.py line 307):
`ops["meanImg"] /= ops["nframes"]`. -/
def finalMeanImg (s : PStream) : ℚ := s.meanImg / (s.nframes : ℚ)

/-- The finalize step for the second-channel mean image (tiff.py line 309):
`ops["meanImg_chan2"] /= ops["nframes"]` -- the divisor is the functional
stream's frame counter. -/
def finalMeanImg2 (s : PStream) : ℚ := s.meanImg2 / (s.nframes : ℚ)

/-- Claim C2: interleaved ingestion of 2 source files of 10 frames each with
P = 2 planes, C = 1 channel, batch-size hint 4: plane 0's stream receives
exactly the global frames 0,2,...,18 in order, plane 1's the odd frames,
both finish with frame count 10, and each plane's finalized mean image is
the elementwise average of its 10 frames. -/
theorem c2_end_to_end_scenario (pix : ℕ → ℚ) :
    ((tiffRun ⟨2, 1, 1, 4⟩ [⟨10, true⟩, ⟨10, false⟩] pix).streams.map
      (fun s => s.written)) =
        [[0, 2, 4, 6, 8, 10, 12, 14, 16, 18], [1, 3, 5, 7, 9, 11, 13, 15, 17, 19]] ∧
    ((tiffRun ⟨2, 1, 1, 4⟩ [⟨10, true⟩, ⟨10, false⟩] pix).streams.map
      (fun s => s.nframes)) = [10, 10] ∧
    ((tiffRun ⟨2, 1, 1, 4⟩ [⟨10, true⟩, ⟨10, false⟩] pix).streams.map finalMeanImg) =
      [(([0, 2, 4, 6, 8, 10, 12, 14, 16, 18].map pix).sum) / 10,
        (([1, 3, 5, 7, 9, 11, 13, 15, 17, 19].map pix).sum) / 10] := by
  obtain ⟨-, -, h3⟩ := tiffRun_corr ⟨2, 1, 1, 4⟩ [⟨10, true⟩, ⟨10, false⟩] pix (by norm_num)
  have hK : (tiffRunK ⟨2, 1, 1, 4⟩ [⟨10, true⟩, ⟨10, false⟩]).skels =
      [⟨[0, 2, 4, 6, 8, 10, 12, 14, 16, 18], [], 10, [5, 5], [10]⟩,
        ⟨[1, 3, 5, 7, 9, 11, 13, 15, 17, 19], [], 10, [5, 5], [10]⟩] := by decide
  rw [hK] at h3
  have hmi := meanInv_tiffRun ⟨2, 1, 1, 4⟩ [⟨10, true⟩, ⟨10, false⟩] pix
  cases hstreams : (tiffRun ⟨2, 1, 1, 4⟩ [⟨10, true⟩, ⟨10, false⟩] pix).streams with
  | nil =>
    rw [hstreams] at h3
    simp at h3
  | cons s0 rest =>
    cases rest with
    | nil =>
      rw [hstreams] at h3
      simp at h3
    | cons s1 rest2 =>
      cases rest2 with
      | cons s2 r3 =>
        rw [hstreams] at h3
        simp at h3
      | nil =>
        rw [hstreams] at h3
        simp only [List.map_cons, List.map_nil, List.cons.injEq, and_true] at h3
        obtain ⟨hs0, hs1⟩ := h3
        have hw0 : s0.written = [0, 2, 4, 6, 8, 10, 12, 14, 16, 18] :=
          congrArg PSkel.written hs0
        have hw1 : s1.written = [1, 3, 5, 7, 9, 11, 13, 15, 17, 19] :=
          congrArg PSkel.written hs1
        have hn0 : s0.nframes = 10 := congrArg PSkel.nframes hs0
        have hn1 : s1.nframes = 10 := congrArg PSkel.nframes hs1
        have hm0 := hmi s0 (by rw [hstreams]; exact List.mem_cons_self _ _)
        have hm1 := hmi s1 (by rw [hstreams]; simp)
        refine ⟨by simp [hw0, hw1], by simp [hn0, hn1], ?_⟩
        simp only [List.map_cons, List.map_nil, finalMeanImg, hm0.1, hm1.1, hw0, hw1,
          hn0, hn1]
        norm_num

/-- Claim C6 as amended: for every plane stream, finalization of the
*functional-channel* mean divides the accumulated sum by the stream's frame
counter and yields exactly `(f1 + ... + fn) / n` over the frames the stream
received (the counter equals the number of received frames); the
second-channel accumulator does not follow this rule (see the
counterexample). -/
theorem c6_mean_functional_stream (cfg : TiffCfg) (files : List FileSpec) (pix : ℕ → ℚ) :
    (tiffRun cfg files pix).streams.map finalMeanImg =
      (tiffRun cfg files pix).streams.map
        (fun s => (s.written.map pix).sum / (s.written.length : ℚ)) ∧
    (tiffRun cfg files pix).streams.map (fun s => s.nframes) =
      (tiffRun cfg files pix).streams.map (fun s => s.written.length) := by
  have hmi := meanInv_tiffRun cfg files pix
  constructor <;> refine List.map_congr_left (fun s hs => ?_)
  · obtain ⟨h1, h2⟩ := hmi s hs
    simp [finalMeanImg, h1, h2]
  · exact (hmi s hs).2

/-- Claim C6, counterexample: one file of 4 frames, P = 1, C = 2, functional
channel 1, every pixel value 2.  The second-channel stream receives frames
1 and 3 (elementwise average 2), but the code accumulates the *batch mean*
(`im2write.mean(axis=0)`, tiff.py line 292) and finalization divides it by
the functional frame counter (line 309), producing 1, not 2. -/
theorem c6_counterexample :
    ((tiffRun ⟨1, 2, 1, 4⟩ [⟨4, true⟩] (fun _ => 2)).streams.map
      (fun s => s.written2)) = [[1, 3]] ∧
    ((tiffRun ⟨1, 2, 1, 4⟩ [⟨4, true⟩] (fun _ => 2)).streams.map finalMeanImg2) = [1] ∧
    (([1, 3].map (fun _ : ℕ => (2 : ℚ))).sum / (([1, 3] : List ℕ).length : ℚ) = 2) ∧
    (1 : ℚ) ≠ 2 := by
  have hslice1 : strideSlice 1 2 4 = [1, 3] := by decide
  have hslice0 : strideSlice 0 2 4 = [0, 2] := by decide
  refine ⟨?_, ?_, by norm_num, by norm_num⟩ <;>
    simp [tiffRun, tiffRunAux, processFile, batchList, batchListAux, batchSizeUsed,
      ceilDiv, pyNot, initState, initStream, countFolders, processBatch, updEach,
      appendTo, pyInt, pyFmod, pyMean, finalMeanImg2, hslice1, hslice0]

/-! Cursor arithmetic on the skeleton (claim C1). -/

lemma batchSizeUsed_pos {P C hint : ℕ} (hP : 0 < P) (hC : 0 < C) (hH : 0 < hint) :
    0 < batchSizeUsed false P C hint := by
  have hM : 0 < P * C := Nat.mul_pos hP hC
  have : 0 < ceilDiv hint (P * C) := by
    apply Nat.div_pos
    · omega
    · omega
  simp only [batchSizeUsed, pyNot, if_true]
  · positivity

lemma sum_batchListAux (L B : ℕ) (hB : 0 < B) :
    ∀ (fuel ix : ℕ), L - ix ≤ fuel →
      (((batchListAux L B fuel ix).map Prod.snd).sum) = L - ix
  | 0, ix, h => by
    have hix : ¬ ix < L := by omega
    simp [batchListAux]
    omega
  | fuel + 1, ix, h => by
    by_cases hix : ix < L
    · have hrec := sum_batchListAux L B hB fuel (ix + min (L - ix) B) (by omega)
      simp only [batchListAux, if_pos hix, List.map_cons, List.sum_cons, hrec]
      omega
    · simp [batchListAux, hix]
      omega

lemma sum_batchList (L B : ℕ) (hB : 0 < B) :
    ((batchList L B).map Prod.snd).sum = L :=
  by simpa using sum_batchListAux L B hB L 0 (by omega)

lemma iplaneK_processBatchK (cfg : TiffCfg) (ik g : ℕ) (k : TSkel) (b : ℕ × ℕ) :
    (processBatchK cfg ik g k b).iplaneK =
      (k.iplaneK - (b.2 : ℤ)) % ((cfg.nplanes * cfg.nchannels : ℕ) : ℤ) := rfl

lemma emod_sub_emod (z d M : ℤ) : (z % M - d) % M = (z - d) % M := by
  conv_lhs => rw [Int.sub_emod]
  conv_rhs => rw [Int.sub_emod]
  rw [Int.emod_emod_of_dvd _ dvd_rfl]

lemma iplaneK_foldl (cfg : TiffCfg) (ik g : ℕ) :
    ∀ (l : List (ℕ × ℕ)) (k : TSkel) (z : ℤ),
      k.iplaneK = z % ((cfg.nplanes * cfg.nchannels : ℕ) : ℤ) →
      (l.foldl (processBatchK cfg ik g) k).iplaneK =
        (z - ((l.map Prod.snd).sum : ℤ)) % ((cfg.nplanes * cfg.nchannels : ℕ) : ℤ)
  | [], k, z, h => by simpa using h
  | b :: rest, k, z, h => by
    have hstep : (processBatchK cfg ik g k b).iplaneK =
        (z - (b.2 : ℤ)) % ((cfg.nplanes * cfg.nchannels : ℕ) : ℤ) := by
      rw [iplaneK_processBatchK, h, emod_sub_emod]
    have := iplaneK_foldl cfg ik g rest (processBatchK cfg ik g k b) (z - (b.2 : ℤ)) hstep
    rw [List.foldl_cons, this]
    simp only [List.map_cons, List.sum_cons]
    congr 1
    push_cast
    ring

lemma iplaneK_tiffRunAuxK (cfg : TiffCfg) (hB : 0 < batchSizeUsed false
      cfg.nplanes cfg.nchannels cfg.batchHint) :
    ∀ (rest : List FileSpec) (ik g : ℕ) (k : TSkel) (z : ℤ),
      (∀ f ∈ rest, f.firstTiff = false) →
      k.iplaneK = z % ((cfg.nplanes * cfg.nchannels : ℕ) : ℤ) →
      (tiffRunAuxK cfg ik g rest k).iplaneK =
        (z - ((rest.map FileSpec.length).sum : ℤ)) %
          ((cfg.nplanes * cfg.nchannels : ℕ) : ℤ)
  | [], _, _, _, z, _, h => by simpa using h
  | f :: rest, ik, g, k, z, hflag, h => by
    have hf : f.firstTiff = false := hflag f (List.mem_cons_self _ _)
    have hfile : (processFileK cfg ik g f k).iplaneK =
        (z - (f.length : ℤ)) % ((cfg.nplanes * cfg.nchannels : ℕ) : ℤ) := by
      simp only [processFileK, hf, Bool.false_eq_true, if_false]
      rw [iplaneK_foldl cfg ik g _ k z h, sum_batchList _ _ hB]
    have := iplaneK_tiffRunAuxK cfg hB rest (ik + 1) (g + f.length)
      (processFileK cfg ik g f k) (z - (f.length : ℤ))
      (fun x hx => hflag x (List.mem_cons_of_mem _ hx)) hfile
    rw [tiffRunAuxK, this]
    simp only [List.map_cons, List.sum_cons]
    congr 1
    push_cast
    ring

/-- Claim C1, counterexample: the cursor is *not* carried across every file
boundary within a run -- a file flagged as starting a new folder resets it
to 0 (tiff.py lines 208-210).  Two folder-flagged files of 5 frames each
with P = 2, C = 1 feed N = 10 = 5*P*C frames, yet the run ends with cursor
1, not the initial 0. -/
theorem c1_counterexample :
    (tiffRun ⟨2, 1, 1, 4⟩ [⟨5, true⟩, ⟨5, true⟩] (fun _ => 0)).iplane = 1 ∧
    5 + 5 = 5 * (2 * 1) ∧ (1 : ℚ) ≠ 0 := by
  obtain ⟨-, h2, -⟩ :=
    tiffRun_corr ⟨2, 1, 1, 4⟩ [⟨5, true⟩, ⟨5, true⟩] (fun _ => 0) (by norm_num)
  have hK : (tiffRunK ⟨2, 1, 1, 4⟩ [⟨5, true⟩, ⟨5, true⟩]).iplaneK = 1 := by decide
  rw [hK] at h2
  norm_num at h2
  exact ⟨h2, by norm_num, by norm_num⟩

/-- Claim C1 as amended: after each batch of `N` frames the cursor becomes
`(cursor_before - N/C) mod P` exactly as stated, and this state is carried
across batch and file boundaries *within one folder*; consequently any
`N = k*P*C` frames spread over the files of a single folder (only the first
file folder-flagged) return the cursor to its initial value 0.  The cursor
is not carried across folder boundaries: every folder-flagged file resets
it (see the counterexample). -/
theorem c1_cursor_periodicity_single_folder (cfg : TiffCfg) (pix : ℕ → ℚ)
    (f0 : FileSpec) (rest : List FileSpec) (k : ℕ)
    (hP : 0 < cfg.nplanes) (hC : 0 < cfg.nchannels) (hH : 0 < cfg.batchHint)
    (h0 : f0.firstTiff = true) (hrest : ∀ f ∈ rest, f.firstTiff = false)
    (hsum : ((f0 :: rest).map FileSpec.length).sum =
      k * (cfg.nplanes * cfg.nchannels)) :
    (tiffRun cfg (f0 :: rest) pix).iplane = 0 ∧
    ∀ (st : TiffState) (ik g : ℕ) (b : ℕ × ℕ),
      (processBatch cfg pix ik g st b).iplane =
        pyFmod (st.iplane - (b.2 : ℚ) / (cfg.nchannels : ℚ)) (cfg.nplanes : ℚ) := by
  refine ⟨?_, fun st ik g b => rfl⟩
  obtain ⟨-, h2, -⟩ := tiffRun_corr cfg (f0 :: rest) pix hC
  have hB := batchSizeUsed_pos hP hC hH
  have hfile0 : (processFileK cfg 0 0 f0 (initStateK cfg (f0 :: rest))).iplaneK =
      ((0 : ℤ) - (f0.length : ℤ)) % ((cfg.nplanes * cfg.nchannels : ℕ) : ℤ) := by
    simp only [processFileK, h0, if_true]
    rw [iplaneK_foldl cfg 0 0 _ _ 0 (Int.zero_emod _).symm, sum_batchList _ _ hB]
  have hKrun : (tiffRunK cfg (f0 :: rest)).iplaneK = 0 := by
    have hrun := iplaneK_tiffRunAuxK cfg hB rest 1 (0 + f0.length)
      (processFileK cfg 0 0 f0 (initStateK cfg (f0 :: rest)))
      ((0 : ℤ) - (f0.length : ℤ)) hrest hfile0
    have heq : (tiffRunK cfg (f0 :: rest)).iplaneK =
        (tiffRunAuxK cfg 1 (0 + f0.length) rest
          (processFileK cfg 0 0 f0 (initStateK cfg (f0 :: rest)))).iplaneK := rfl
    rw [heq, hrun]
    have hsum' : (f0.length : ℤ) + ((rest.map FileSpec.length).sum : ℤ) =
        (k : ℤ) * ((cfg.nplanes * cfg.nchannels : ℕ) : ℤ) := by
      simp only [List.map_cons, List.sum_cons] at hsum
      exact_mod_cast hsum
    have harg : (0 : ℤ) - (f0.length : ℤ) - ((rest.map FileSpec.length).sum : ℤ) =
        (-(k : ℤ)) * ((cfg.nplanes * cfg.nchannels : ℕ) : ℤ) := by linarith
    rw [harg]
    exact Int.mul_emod_left _ _
  rw [hKrun] at h2
  simpa using h2

/-- Claim C1 as amended, witness. -/
theorem c1_cursor_periodicity_single_folder_witness :
    (tiffRun ⟨2, 1, 1, 2⟩ [⟨2, true⟩, ⟨2, false⟩] (fun _ => 0)).iplane = 0 :=
  (c1_cursor_periodicity_single_folder ⟨2, 1, 1, 2⟩ (fun _ => 0) ⟨2, true⟩
    [⟨2, false⟩] 2 (by decide) (by decide) (by decide) (by decide)
    (by decide) (by decide)).1

/-! Frame-counting infrastructure (claim C3): each batch distributes its
frames among the plane streams without loss for single-channel
acquisitions. -/

lemma length_updEach {α : Type} (f : ℕ → α → α) :
    ∀ (j0 : ℕ) (l : List α), (updEach f j0 l).length = l.length
  | _, [] => rfl
  | j0, _ :: rest => by simp [updEach, length_updEach f (j0 + 1) rest]

lemma sum_map_updEach {α : Type} (f : ℕ → α → α) (g : α → ℕ) (d : ℕ → ℕ)
    (hf : ∀ j a, g (f j a) = g a + d j) :
    ∀ (j0 : ℕ) (l : List α),
      ((updEach f j0 l).map g).sum =
        (l.map g).sum + ∑ i ∈ Finset.range l.length, d (j0 + i)
  | _, [] => by simp [updEach]
  | j0, a :: rest => by
    simp only [updEach, List.map_cons, List.sum_cons, hf,
      sum_map_updEach f g d hf (j0 + 1) rest, List.length_cons]
    rw [Finset.sum_range_succ']
    have hshift : ∀ i ∈ Finset.range rest.length, d (j0 + (i + 1)) = d (j0 + 1 + i) :=
      fun i _ => by rw [show j0 + (i + 1) = j0 + 1 + i from by omega]
    rw [Finset.sum_congr rfl hshift]
    simp only [Nat.add_zero]
    omega

lemma sum_range_rotate (g : ℕ → ℕ) (P : ℕ) :
    ∀ n : ℕ, ∑ j ∈ Finset.range P, g ((n + j) % P) = ∑ r ∈ Finset.range P, g r := by
  intro n
  induction n with
  | zero =>
    refine Finset.sum_congr rfl (fun i hi => ?_)
    rw [Nat.zero_add, Nat.mod_eq_of_lt (Finset.mem_range.mp hi)]
  | succ m ih =>
    rw [← ih]
    by_cases hP : P = 0
    · subst hP
      simp
    obtain ⟨Q, rfl⟩ : ∃ Q, P = Q + 1 := ⟨P - 1, by omega⟩
    rw [Finset.sum_range_succ, Finset.sum_range_succ']
    congr 1
    · refine Finset.sum_congr rfl (fun i _ => ?_)
      have : m + 1 + i = m + (i + 1) := by omega
      rw [this]
    · have : m + 1 + Q = m + (Q + 1) := by omega
      rw [this, Nat.add_mod_right]
      simp

lemma strideSlice_cond_iff {P m r : ℕ} (hr : r < P) :
    (r ≤ m ∧ (m - r) % P = 0) ↔ r = m % P := by
  constructor
  · rintro ⟨h1, h2⟩
    obtain ⟨k, hk⟩ := Nat.dvd_of_mod_eq_zero h2
    have hm : m = r + P * k := by omega
    rw [hm, Nat.add_mul_mod_self_left, Nat.mod_eq_of_lt hr]
  · rintro rfl
    refine ⟨Nat.mod_le _ _, ?_⟩
    have hd := Nat.div_add_mod m P
    have : m - m % P = P * (m / P) := by omega
    rw [this, Nat.mul_mod_right]

lemma sum_strideSlice_length (P : ℕ) (hP : 0 < P) :
    ∀ nfr : ℕ, (∑ r ∈ Finset.range P, (strideSlice r P nfr).length) = nfr := by
  intro nfr
  induction nfr with
  | zero => simp [strideSlice]
  | succ m ih =>
    have hstep : ∀ r ∈ Finset.range P, (strideSlice r P (m + 1)).length =
        (strideSlice r P m).length + (if r = m % P then 1 else 0) := by
      intro r hr
      have hiff := strideSlice_cond_iff (Finset.mem_range.mp hr) (m := m)
      simp only [strideSlice, List.range_succ, List.filter_append, List.length_append]
      congr 1
      by_cases hcond : r = m % P
      · obtain ⟨hc1, hc2⟩ := hiff.mpr hcond
        subst hcond
        simp [List.filter_singleton, hc1, hc2]
      · have : ¬ (r ≤ m ∧ (m - r) % P = 0) := fun hc => hcond (hiff.mp hc)
        simp only [List.filter_singleton]
        rw [if_neg hcond]
        have hdec : (decide (r ≤ m ∧ (m - r) % P = 0)) = false := by
          simpa using this
        simp [hdec]
    rw [Finset.sum_congr rfl hstep, Finset.sum_add_distrib, ih,
      Finset.sum_ite_eq' (Finset.range P) (m % P) (fun _ => 1)]
    simp [Nat.mod_lt _ hP]

lemma nframes_routeK (cfg : TiffCfg) (ik fs : ℕ) (wf : ℤ) (a : ℤ) (b : ℕ × ℕ)
    (j : ℕ) (s : PSkel) :
    (routeK cfg ik fs wf a b j s).nframes = s.nframes +
      (strideSlice (((a + (j : ℤ) * (cfg.nchannels : ℤ)) %
          ((cfg.nplanes * cfg.nchannels : ℕ) : ℤ)).toNat +
        (if 1 < cfg.nchannels then cfg.functional_chan - 1 else 0))
        (cfg.nplanes * cfg.nchannels) b.2).length := by
  simp [routeK, appendToK]

lemma routeK_start_c1 (cfg : TiffCfg) (hC : cfg.nchannels = 1) (n j : ℕ) :
    (((n : ℤ) + (j : ℤ) * (cfg.nchannels : ℤ)) %
        ((cfg.nplanes * cfg.nchannels : ℕ) : ℤ)).toNat +
      (if 1 < cfg.nchannels then cfg.functional_chan - 1 else 0) =
      (n + j) % cfg.nplanes := by
  simp only [hC, Nat.cast_one, mul_one, Nat.mul_one, Nat.lt_irrefl, if_false]
  rw [show ((n : ℤ) + (j : ℤ)) = ((n + j : ℕ) : ℤ) by push_cast; ring,
    ← Int.natCast_mod, Int.toNat_natCast, Nat.add_zero]

lemma nframes_sum_batchK (cfg : TiffCfg) (ik g : ℕ) (k : TSkel) (b : ℕ × ℕ)
    (hC : cfg.nchannels = 1) (hP : 0 < cfg.nplanes)
    (hip : 0 ≤ k.iplaneK) (hlen : k.skels.length = cfg.nplanes) :
    (((processBatchK cfg ik g k b).skels.map (fun s => s.nframes)).sum) =
      ((k.skels.map (fun s => s.nframes)).sum) + b.2 := by
  obtain ⟨n, hn⟩ := Int.eq_ofNat_of_zero_le hip
  have hf : ∀ j s, (routeK cfg ik g k.whichFolder k.iplaneK b j s).nframes =
      s.nframes + (strideSlice ((n + j) % cfg.nplanes) cfg.nplanes b.2).length := by
    intro j s
    rw [nframes_routeK, hn, routeK_start_c1 cfg hC, hC, Nat.mul_one]
  show ((updEach (routeK cfg ik g k.whichFolder k.iplaneK b) 0 k.skels).map
      (fun s => s.nframes)).sum = _
  rw [sum_map_updEach _ _ _ hf 0 k.skels, hlen]
  congr 1
  have hz : ∀ i ∈ Finset.range cfg.nplanes,
      (strideSlice ((n + (0 + i)) % cfg.nplanes) cfg.nplanes b.2).length =
        (strideSlice ((n + i) % cfg.nplanes) cfg.nplanes b.2).length := by
    intro i _
    rw [Nat.zero_add]
  rw [Finset.sum_congr rfl hz,
    sum_range_rotate (fun r => (strideSlice r cfg.nplanes b.2).length) cfg.nplanes n,
    sum_strideSlice_length _ hP]

lemma c3_invariant_foldl (cfg : TiffCfg) (ik g : ℕ) (hC : cfg.nchannels = 1)
    (hP : 0 < cfg.nplanes) :
    ∀ (l : List (ℕ × ℕ)) (k : TSkel), 0 ≤ k.iplaneK → k.skels.length = cfg.nplanes →
      0 ≤ (l.foldl (processBatchK cfg ik g) k).iplaneK ∧
        (l.foldl (processBatchK cfg ik g) k).skels.length = cfg.nplanes ∧
        (((l.foldl (processBatchK cfg ik g) k).skels.map (fun s => s.nframes)).sum) =
          ((k.skels.map (fun s => s.nframes)).sum) + (l.map Prod.snd).sum
  | [], _, h1, h2 => ⟨h1, h2, by simp⟩
  | b :: rest, k, h1, h2 => by
    have hM : ((cfg.nplanes * cfg.nchannels : ℕ) : ℤ) ≠ 0 := by
      rw [hC, Nat.mul_one]
      exact_mod_cast hP.ne'
    have h1' : 0 ≤ (processBatchK cfg ik g k b).iplaneK := Int.emod_nonneg _ hM
    have h2' : (processBatchK cfg ik g k b).skels.length = cfg.nplanes := by
      simpa [processBatchK, length_updEach] using h2
    obtain ⟨a1, a2, a3⟩ := c3_invariant_foldl cfg ik g hC hP rest
      (processBatchK cfg ik g k b) h1' h2'
    refine ⟨a1, a2, ?_⟩
    rw [List.foldl_cons, a3, nframes_sum_batchK cfg ik g k b hC hP h1 h2]
    simp only [List.map_cons, List.sum_cons]
    omega

lemma c3_invariant_fileK (cfg : TiffCfg) (ik g : ℕ) (hC : cfg.nchannels = 1)
    (hP : 0 < cfg.nplanes) (hH : 0 < cfg.batchHint) (f : FileSpec) (k : TSkel)
    (h1 : 0 ≤ k.iplaneK) (h2 : k.skels.length = cfg.nplanes) :
    0 ≤ (processFileK cfg ik g f k).iplaneK ∧
      (processFileK cfg ik g f k).skels.length = cfg.nplanes ∧
      (((processFileK cfg ik g f k).skels.map (fun s => s.nframes)).sum) =
        ((k.skels.map (fun s => s.nframes)).sum) + f.length := by
  have hB : 0 < batchSizeUsed false cfg.nplanes cfg.nchannels cfg.batchHint :=
    batchSizeUsed_pos hP (by omega) hH
  have hbsum := sum_batchList f.length
    (batchSizeUsed false cfg.nplanes cfg.nchannels cfg.batchHint) hB
  cases hf : f.firstTiff
  · have := c3_invariant_foldl cfg ik g hC hP
      (batchList f.length (batchSizeUsed false cfg.nplanes cfg.nchannels cfg.batchHint))
      k h1 h2
    simpa [processFileK, hf, hbsum] using this
  · have := c3_invariant_foldl cfg ik g hC hP
      (batchList f.length (batchSizeUsed false cfg.nplanes cfg.nchannels cfg.batchHint))
      { k with whichFolder := k.whichFolder + 1, iplaneK := 0 } (by simp) (by simpa using h2)
    simpa [processFileK, hf, hbsum] using this

lemma c3_invariant_runK (cfg : TiffCfg) (hC : cfg.nchannels = 1)
    (hP : 0 < cfg.nplanes) (hH : 0 < cfg.batchHint) :
    ∀ (files : List FileSpec) (ik g : ℕ) (k : TSkel),
      0 ≤ k.iplaneK → k.skels.length = cfg.nplanes →
      (((tiffRunAuxK cfg ik g files k).skels.map (fun s => s.nframes)).sum) =
        ((k.skels.map (fun s => s.nframes)).sum) + (files.map FileSpec.length).sum
  | [], _, _, _, _, _ => by simp [tiffRunAuxK]
  | f :: rest, ik, g, k, h1, h2 => by
    obtain ⟨a1, a2, a3⟩ := c3_invariant_fileK cfg ik g hC hP hH f k h1 h2
    rw [tiffRunAuxK, c3_invariant_runK cfg hC hP hH rest (ik + 1) (g + f.length)
      (processFileK cfg ik g f k) a1 a2, a3]
    simp only [List.map_cons, List.sum_cons]
    omega

/-- Claim C3 as amended: for a single-channel interleaved ingestion the sum
over all plane streams of the frame counters equals the *total* number of
frames read from all source files -- nothing is dropped, trailing frames
that do not fill a complete `P*C` cycle included; each frame is counted in
exactly one stream. -/
theorem c3_frame_conservation_no_drops (cfg : TiffCfg) (files : List FileSpec)
    (pix : ℕ → ℚ) (hC : cfg.nchannels = 1) (hP : 0 < cfg.nplanes)
    (hH : 0 < cfg.batchHint) :
    (((tiffRun cfg files pix).streams.map (fun s => s.nframes)).sum) =
      (files.map FileSpec.length).sum := by
  obtain ⟨-, -, h3⟩ := tiffRun_corr cfg files pix (by omega)
  have hmap : (tiffRun cfg files pix).streams.map (fun s => s.nframes) =
      (tiffRunK cfg files).skels.map (fun s => s.nframes) := by
    rw [← h3, List.map_map]
    rfl
  rw [hmap]
  have hinit : ((initStateK cfg files).skels.map (fun s => s.nframes)).sum = 0 := by
    simp [initStateK, initSkel, List.map_replicate]
  have := c3_invariant_runK cfg hC hP hH files 0 0 (initStateK cfg files)
    (by simp [initStateK]) (by simp [initStateK])
  rw [tiffRunK] at *
  rw [this, hinit, Nat.zero_add]

/-- Claim C3 as amended, witness. -/
theorem c3_frame_conservation_no_drops_witness :
    (((tiffRun ⟨2, 1, 1, 4⟩ [⟨5, true⟩] (fun _ => 0)).streams.map
      (fun s => s.nframes)).sum) =
      (([⟨5, true⟩] : List FileSpec).map FileSpec.length).sum :=
  c3_frame_conservation_no_drops ⟨2, 1, 1, 4⟩ [⟨5, true⟩] (fun _ => 0)
    rfl (by decide) (by decide)

/-- Claim C3, counterexample: one file of 5 frames, P = 2, C = 1.  The run
reads all 5 frames and the stream counters sum to 5 (plane 0 gets 3 frames,
plane 1 gets 2), yet 5 is not a multiple of `P*C = 2`, so the claim's "total
minus the trailing frames that do not fill one complete `P*C` cycle" (5 - 1
= 4) is wrong: the trailing frame is routed and counted, not dropped. -/
theorem c3_counterexample :
    (((tiffRun ⟨2, 1, 1, 4⟩ [⟨5, true⟩] (fun _ => 0)).streams.map
      (fun s => s.nframes)).sum = 5) ∧ 5 % (2 * 1) = 1 ∧
    (((tiffRun ⟨2, 1, 1, 4⟩ [⟨5, true⟩] (fun _ => 0)).streams.map
      (fun s => s.nframes)).sum ≠ 5 - 1) := by
  obtain ⟨-, -, h3⟩ := tiffRun_corr ⟨2, 1, 1, 4⟩ [⟨5, true⟩] (fun _ => 0) (by norm_num)
  have hmap : (tiffRun ⟨2, 1, 1, 4⟩ [⟨5, true⟩] (fun _ => 0)).streams.map
      (fun s => s.nframes) = (tiffRunK ⟨2, 1, 1, 4⟩ [⟨5, true⟩]).skels.map
      (fun s => s.nframes) := by
    rw [← h3, List.map_map]
    rfl
  have hK : (tiffRunK ⟨2, 1, 1, 4⟩ [⟨5, true⟩]).skels.map (fun s => s.nframes) =
      [3, 2] := by decide
  rw [hmap, hK]
  refine ⟨rfl, rfl, by decide⟩

/-! Per-file / per-folder tally invariants (claim C8). -/

lemma sum_set_add (d : ℕ) : ∀ (l : List ℕ) (k : ℕ), k < l.length →
    (l.set k (l.getD k 0 + d)).sum = l.sum + d
  | [], k, h => by simp at h
  | a :: rest, 0, _ => by
    simp only [List.set, List.getD_cons_zero, List.sum_cons]
    omega
  | a :: rest, k + 1, h => by
    have hrec := sum_set_add d rest k (by simpa using h)
    simp only [List.set, List.getD_cons_succ, List.sum_cons, hrec]
    omega

lemma length_pyBump (l : List ℕ) (i : ℤ) (d : ℕ) : (pyBump l i d).length = l.length := by
  unfold pyBump
  cases h : pyIdx l.length i <;> simp

lemma pyIdx_some_lt {len : ℕ} {i : ℤ} {k : ℕ} (h : pyIdx len i = some k) : k < len := by
  unfold pyIdx at h
  split at h <;> split at h <;> simp_all <;> omega

lemma pyIdx_isSome {len : ℕ} {i : ℤ} (h1 : -(len : ℤ) ≤ i) (h2 : i < len) :
    (pyIdx len i).isSome = true := by
  unfold pyIdx
  by_cases h : 0 ≤ i
  · rw [if_pos h, if_pos h2]
    rfl
  · rw [if_neg h, if_pos (by omega)]
    rfl

lemma sum_pyBump (l : List ℕ) (i : ℤ) (d : ℕ) (h : (pyIdx l.length i).isSome = true) :
    (pyBump l i d).sum = l.sum + d := by
  unfold pyBump
  cases hidx : pyIdx l.length i with
  | none => rw [hidx] at h; simp at h
  | some k => exact sum_set_add d l k (pyIdx_some_lt hidx)

/-- The per-stream tally invariant carried through the skeleton run: both
tally tables keep their size and their sums track the frame counter. -/
def C8SkelInv (N M : ℕ) (k : TSkel) : Prop :=
  ∀ s ∈ k.skels, s.framesPerFile.length = N ∧ s.framesPerFolder.length = M ∧
    s.framesPerFile.sum = s.nframes ∧ s.framesPerFolder.sum = s.nframes

lemma c8_invariant_batchK (cfg : TiffCfg) (ik g : ℕ) (N M : ℕ) (k : TSkel)
    (b : ℕ × ℕ) (hik : ik < N) (hlo : -(M : ℤ) ≤ k.whichFolder)
    (hhi : k.whichFolder < (M : ℤ)) (h : C8SkelInv N M k) :
    C8SkelInv N M (processBatchK cfg ik g k b) := by
  intro s hs
  simp only [processBatchK] at hs
  obtain ⟨j, t, ht, rfl⟩ := mem_updEach _ _ _ _ hs
  obtain ⟨h1, h2, h3, h4⟩ := h t ht
  have hsome1 : (pyIdx t.framesPerFile.length (ik : ℤ)).isSome = true := by
    rw [h1]
    exact pyIdx_isSome (by omega) (by exact_mod_cast hik)
  have hsome2 : (pyIdx t.framesPerFolder.length k.whichFolder).isSome = true := by
    rw [h2]
    exact pyIdx_isSome hlo hhi
  refine ⟨?_, ?_, ?_, ?_⟩ <;>
    simp [routeK, appendToK, length_pyBump, sum_pyBump _ _ _ hsome1,
      sum_pyBump _ _ _ hsome2, h1, h2, h3, h4]

lemma c8_invariant_foldl (cfg : TiffCfg) (ik g : ℕ) (N M : ℕ) (hik : ik < N) :
    ∀ (l : List (ℕ × ℕ)) (k : TSkel),
      -(M : ℤ) ≤ k.whichFolder → k.whichFolder < (M : ℤ) → C8SkelInv N M k →
      C8SkelInv N M (l.foldl (processBatchK cfg ik g) k) ∧
        (l.foldl (processBatchK cfg ik g) k).whichFolder = k.whichFolder
  | [], _, _, _, h => ⟨h, rfl⟩
  | b :: rest, k, hlo, hhi, h => by
    have hb := c8_invariant_batchK cfg ik g N M k b hik hlo hhi h
    have hwf : (processBatchK cfg ik g k b).whichFolder = k.whichFolder := rfl
    obtain ⟨ih1, ih2⟩ := c8_invariant_foldl cfg ik g N M hik rest
      (processBatchK cfg ik g k b) (by rw [hwf]; exact hlo) (by rw [hwf]; exact hhi) hb
    exact ⟨ih1, by rw [List.foldl_cons, ih2, hwf]⟩

lemma countFolders_cons (f : FileSpec) (rest : List FileSpec) :
    countFolders (f :: rest) =
      (if f.firstTiff then 1 else 0) + countFolders rest := by
  unfold countFolders
  cases hf : f.firstTiff <;> simp [List.filter_cons, hf]
  omega

lemma c8_invariant_fileK (cfg : TiffCfg) (ik g : ℕ) (N M : ℕ) (f : FileSpec)
    (k : TSkel) (hik : ik < N) (hM : 0 < M) (hlo : -1 ≤ k.whichFolder)
    (hhi : k.whichFolder + (if f.firstTiff then (1 : ℤ) else 0) < (M : ℤ))
    (h : C8SkelInv N M k) :
    C8SkelInv N M (processFileK cfg ik g f k) ∧
      (processFileK cfg ik g f k).whichFolder =
        k.whichFolder + (if f.firstTiff then (1 : ℤ) else 0) := by
  cases hf : f.firstTiff
  · rw [hf] at hhi
    simp only [Bool.false_eq_true, if_false, add_zero] at hhi
    have hfold := c8_invariant_foldl cfg ik g N M hik
      (batchList f.length (batchSizeUsed false cfg.nplanes cfg.nchannels cfg.batchHint))
      k (by omega) hhi h
    constructor
    · simpa [processFileK, hf] using hfold.1
    · have h2 := hfold.2
      simp only [processFileK, hf, Bool.false_eq_true, if_false]
      simp only [Bool.false_eq_true, if_false, add_zero]
      exact h2
  · rw [hf] at hhi
    simp only [if_true, if_pos] at hhi
    have hk1 : C8SkelInv N M
        { k with whichFolder := k.whichFolder + 1, iplaneK := 0 } := h
    have hfold := c8_invariant_foldl cfg ik g N M hik
      (batchList f.length (batchSizeUsed false cfg.nplanes cfg.nchannels cfg.batchHint))
      { k with whichFolder := k.whichFolder + 1, iplaneK := 0 }
      (by simp; omega) (by simpa using hhi) hk1
    constructor
    · simpa [processFileK, hf] using hfold.1
    · have h2 := hfold.2
      simp only [processFileK, hf, if_true]
      simpa using h2

lemma c8_invariant_prefixK (cfg : TiffCfg) (N M : ℕ) (hM : 0 < M) :
    ∀ (rest : List FileSpec) (ik g : ℕ) (k : TSkel),
      ik + rest.length ≤ N → -1 ≤ k.whichFolder →
      k.whichFolder + (countFolders rest : ℤ) < (M : ℤ) →
      C8SkelInv N M k → C8SkelInv N M (tiffRunAuxK cfg ik g rest k)
  | [], _, _, _, _, _, _, h => h
  | f :: rest, ik, g, k, hik, hlo, hhi, h => by
    rw [countFolders_cons] at hhi
    push_cast at hhi
    have hik1 : ik < N := by
      simp only [List.length_cons] at hik
      omega
    have hcount : (0 : ℤ) ≤ (countFolders rest : ℤ) := by positivity
    have hhi0 : k.whichFolder + (if f.firstTiff then (1 : ℤ) else 0) < (M : ℤ) := by
      cases hf : f.firstTiff <;> rw [hf] at hhi <;> simp at hhi ⊢ <;> omega
    obtain ⟨hinv, hwf⟩ := c8_invariant_fileK cfg ik g N M f k hik1 hM hlo hhi0 h
    refine c8_invariant_prefixK cfg N M hM rest (ik + 1) (g + f.length)
      (processFileK cfg ik g f k) ?_ ?_ ?_ hinv
    · simp only [List.length_cons] at hik
      omega
    · rw [hwf]
      cases f.firstTiff <;> simp <;> omega
    · rw [hwf]
      cases hf : f.firstTiff <;> rw [hf] at hhi <;> simp at hhi ⊢ <;> omega

lemma initState_corr (cfg : TiffCfg) (files : List FileSpec) :
    Corr cfg.nchannels (initState cfg files) (initStateK cfg files) := by
  refine ⟨rfl, by simp [initState, initStateK], ?_⟩
  simp [initState, initStateK, List.map_replicate, PStream.skel, initStream, initSkel]

/-- The driver state after processing the files of `files1`, in a run whose
full file list is `files1 ++ files2`: this ranges over every file-boundary
point of the run (`files2 = []` is the end of the run). -/
def tiffRunPrefix (cfg : TiffCfg) (files1 files2 : List FileSpec)
    (pix : ℕ → ℚ) : TiffState :=
  tiffRunAux cfg pix 0 0 files1 (initState cfg (files1 ++ files2))

/-- Initial per-plane stream of the single-page branch of `ome_to_binary`
(tiff.py lines 562-565): zero frames, `frames_per_folder = [0]` (the
function assumes a single folder), and `frames_per_file` initialized to
*ones* -- one per functional-channel file -- because `n_pages == 1` (line
565).  Only the tallies and the routed file indices are modelled; that is
all the claims about this path concern. -/
def omeInitStream (nfiles : ℕ) : PSkel := ⟨[], [], 0, List.replicate nfiles 1, [0]⟩

/-- One file of the single-page loop of `ome_to_binary` (tiff.py lines
586-600): plane `iplanes[ik]` receives the frame; `nframes` and
`frames_per_folder[0]` are bumped; `frames_per_file` is *not* updated. -/
def omeStep (nfiles : ℕ) (iplanes : List ℕ) (streams : List PSkel) (ik : ℕ) :
    List PSkel :=
  let ip := iplanes.getD ik 0
  let s := streams.getD ip (omeInitStream nfiles)
  streams.set ip
    { s with
      written := s.written ++ [ik]
      nframes := s.nframes + 1
      framesPerFolder := pyBump s.framesPerFolder 0 1 }

/-- Streams after the first `kfiles` single-page files of `ome_to_binary`. -/
def omeRunPrefix (nplanes nfiles : ℕ) (bidir : Bool) (kfiles : ℕ) : List PSkel :=
  (List.range kfiles).foldl (omeStep nfiles (omePlaneCycle nplanes nfiles bidir))
    (List.replicate nplanes (omeInitStream nfiles))

/-- The full single-page functional-channel loop of `ome_to_binary`. -/
def ome_to_binary (nplanes nfiles : ℕ) (bidir : Bool) : List PSkel :=
  omeRunPrefix nplanes nfiles bidir nfiles

lemma c8_ome_invariant (nplanes nfiles : ℕ) (bidir : Bool) :
    ∀ kfiles : ℕ, ∀ s ∈ omeRunPrefix nplanes nfiles bidir kfiles,
      0 < s.framesPerFolder.length ∧ s.framesPerFolder.sum = s.nframes ∧
        s.framesPerFile.sum = nfiles := by
  intro kfiles
  induction kfiles with
  | zero =>
    intro s hs
    have := List.eq_of_mem_replicate hs
    subst this
    simp [omeInitStream]
  | succ m ih =>
    intro s hs
    have hrw : omeRunPrefix nplanes nfiles bidir (m + 1) =
        omeStep nfiles (omePlaneCycle nplanes nfiles bidir)
          (omeRunPrefix nplanes nfiles bidir m) m := by
      simp [omeRunPrefix, List.range_succ]
    rw [hrw] at hs
    simp only [omeStep] at hs
    rcases List.mem_or_eq_of_mem_set hs with hmem | heq
    · exact ih s hmem
    · set ip := (omePlaneCycle nplanes nfiles bidir).getD m 0 with hip
      set t := (omeRunPrefix nplanes nfiles bidir m).getD ip (omeInitStream nfiles)
        with ht
      have hts : 0 < t.framesPerFolder.length ∧ t.framesPerFolder.sum = t.nframes ∧
          t.framesPerFile.sum = nfiles := by
        by_cases hlt : ip < (omeRunPrefix nplanes nfiles bidir m).length
        · refine ih t ?_
          rw [ht, List.getD_eq_getElem _ _ hlt]
          exact List.getElem_mem _
        · rw [ht, List.getD_eq_default _ _ (le_of_not_lt hlt)]
          simp [omeInitStream]
      obtain ⟨t1, t2, t3⟩ := hts
      subst heq
      have hsome : (pyIdx t.framesPerFolder.length 0).isSome = true :=
        pyIdx_isSome (by omega) (by exact_mod_cast t1)
      refine ⟨?_, ?_, ?_⟩
      · simpa [length_pyBump] using t1
      · simp [sum_pyBump _ _ _ hsome, t2]
      · simpa using t3

/-- Claim C8 as amended: in the interleaved driver, at every file-boundary
point of a run (any split `files1 ++ files2` of the file list) and at its
end, each plane stream's per-file tallies and its per-folder tallies both
sum to the stream's frame counter (each append bumps all three by the same
amount).  In the single-page OME path only the per-folder equality holds:
the per-file table is initialized to one per source file and never
updated, so it sums to the file count instead of the stream's counter. -/
theorem c8_tally_invariants (cfg : TiffCfg) (files1 files2 : List FileSpec)
    (pix : ℕ → ℚ) (nplanes nfiles kfiles : ℕ) (bidir : Bool)
    (hC : 0 < cfg.nchannels) (hM : 0 < countFolders (files1 ++ files2)) :
    ((tiffRunPrefix cfg files1 files2 pix).streams.map
        (fun s => s.framesPerFile.sum) =
      (tiffRunPrefix cfg files1 files2 pix).streams.map (fun s => s.nframes)) ∧
    ((tiffRunPrefix cfg files1 files2 pix).streams.map
        (fun s => s.framesPerFolder.sum) =
      (tiffRunPrefix cfg files1 files2 pix).streams.map (fun s => s.nframes)) ∧
    ((omeRunPrefix nplanes nfiles bidir kfiles).map
        (fun s => s.framesPerFolder.sum) =
      (omeRunPrefix nplanes nfiles bidir kfiles).map (fun s => s.nframes)) ∧
    ((omeRunPrefix nplanes nfiles bidir kfiles).map
        (fun s => s.framesPerFile.sum) =
      (omeRunPrefix nplanes nfiles bidir kfiles).map (fun _ => nfiles)) := by
  have home := c8_ome_invariant nplanes nfiles bidir kfiles
  obtain ⟨-, -, h3⟩ := tiffRunAux_corr cfg pix hC files1 0 0
    (initState cfg (files1 ++ files2)) (initStateK cfg (files1 ++ files2))
    (initState_corr cfg (files1 ++ files2))
  have hskel : C8SkelInv (files1 ++ files2).length (countFolders (files1 ++ files2))
      (tiffRunAuxK cfg 0 0 files1 (initStateK cfg (files1 ++ files2))) := by
    refine c8_invariant_prefixK cfg _ _ hM files1 0 0 _ (by simp)
      (by simp [initStateK]) ?_ ?_
    · have hle : countFolders files1 ≤ countFolders (files1 ++ files2) := by
        unfold countFolders
        simp [List.filter_append]
      have hwf : (initStateK cfg (files1 ++ files2)).whichFolder = -1 := rfl
      rw [hwf]
      omega
    · intro s hs
      have := List.eq_of_mem_replicate hs
      subst this
      simp [initSkel]
  have htiff : ∀ s ∈ (tiffRunPrefix cfg files1 files2 pix).streams,
      s.framesPerFile.sum = s.nframes ∧ s.framesPerFolder.sum = s.nframes := by
    intro s hs
    have hmem : PStream.skel s ∈
        (tiffRunAuxK cfg 0 0 files1 (initStateK cfg (files1 ++ files2))).skels := by
      rw [← h3]
      exact List.mem_map_of_mem _ hs
    obtain ⟨-, -, g3, g4⟩ := hskel _ hmem
    exact ⟨g3, g4⟩
  exact ⟨List.map_congr_left (fun s hs => (htiff s hs).1),
    List.map_congr_left (fun s hs => (htiff s hs).2),
    List.map_congr_left (fun s hs => (home s hs).2.1),
    List.map_congr_left (fun s hs => (home s hs).2.2)⟩

/-- Claim C8 as amended, witness. -/
theorem c8_tally_invariants_witness :
    ((tiffRunPrefix ⟨1, 1, 1, 1⟩ [⟨1, true⟩] [] (fun _ => 0)).streams.map
        (fun s => s.framesPerFile.sum) =
      (tiffRunPrefix ⟨1, 1, 1, 1⟩ [⟨1, true⟩] [] (fun _ => 0)).streams.map
        (fun s => s.nframes)) :=
  (c8_tally_invariants ⟨1, 1, 1, 1⟩ [⟨1, true⟩] [] (fun _ => 0) 2 2 2 false
    (by decide) (by decide)).1

/-- Claim C8, counterexample: in the OME single-page path with P = 2 and 4
single-page functional files, each plane's stream has processed 2 frames
(and its per-folder tally sums to 2), but its per-file tallies sum to 4 --
they were initialized to ones and never updated -- so the per-file sum does
not equal the stream's frame counter. -/
theorem c8_counterexample :
    ((ome_to_binary 2 4 false).map (fun s => s.nframes)) = [2, 2] ∧
    ((ome_to_binary 2 4 false).map (fun s => s.framesPerFile.sum)) = [4, 4] ∧
    (2 : ℕ) ≠ 4 := by decide
